import Mathlib

/-!
# Verification of the picoclaw memory subsystem

Shallow embedding of the memory store, embedders and auto-capture logic of
the picoclaw repository (`pkg/memory`), together with proofs about the
behaviour claimed in the specification.

Modelling conventions:
* Go `float32` arithmetic is modelled by exact rational arithmetic (`ℚ`).
  `math.Sqrt` is modelled by `ratSqrt`, which agrees with the real square
  root exactly on perfect-square rationals; theorems that depend on the
  value of a square root carry an explicit exactness hypothesis.
* Go strings are modelled as `List Char` (Unicode scalar values); Go's
  `len` on strings (a byte count) is modelled by `byteLen`, the sum of the
  UTF-8 sizes of the characters.
* Database state is modelled as the list of rows in `created_at DESC`
  order (the order produced by the `SELECT ... ORDER BY created_at DESC`
  in `MemoryStore.Search`).
-/

namespace Picoclaw

/-- Sum of squares of a vector (the `normA`/`normB` accumulators of
`cosineSimilarity` and the `sum` accumulator of `normalizeVector`). -/
def sumSq (v : List ℚ) : ℚ :=
  (v.map (fun x => x * x)).sum

/-- Dot product of two vectors, truncating at the shorter one
(the `dotProduct` accumulator of `cosineSimilarity`; the code only calls
it on equal-length vectors). -/
def dot (a b : List ℚ) : ℚ :=
  (List.zipWith (fun x y => x * y) a b).sum

/-- Model of `math.Sqrt` on rationals: exact on perfect-square rationals
(numerator and denominator of the reduced form both perfect squares),
which covers every place a theorem below needs the value of a square
root. -/
def ratSqrt (q : ℚ) : ℚ :=
  mkRat (Int.sqrt q.num) (Nat.sqrt q.den)

/-- Model of `cosineSimilarity` from `store.go`: returns 0 on length mismatch or a
zero norm, otherwise the dot product over the product of the norms. -/
def cosineSimilarity (a b : List ℚ) : ℚ :=
  if a.length ≠ b.length then 0
  else
    let dotProduct := dot a b
    let normA := sumSq a
    let normB := sumSq b
    if normA = 0 ∨ normB = 0 then 0
    else dotProduct / (ratSqrt normA * ratSqrt normB)

/-- Model of `normalizeVector` from `store.go`: L2-normalizes a vector, returning
the input unchanged when its norm is zero. -/
def normalizeVector (v : List ℚ) : List ℚ :=
  let norm := ratSqrt (sumSq v)
  if norm = 0 then v else v.map (fun x => x / norm)

/-! ## Memory entries and the store state

The database table `memories` is modelled as the list of its rows in
`created_at DESC` order — exactly the candidate window that
`MemoryStore.Search` reads with `SELECT ... ORDER BY created_at DESC
LIMIT 1000`.  `MemoryStore.Store` inserts the freshly created (hence
newest) entry, i.e. prepends it to the window.  The `uuid.New()` and
`time.Now()` calls of `Store` are modelled as explicit `genId` / `now`
arguments, and the embedding provider as a function
`embed : List Char → Option (List ℚ)` (`none` models an `Embed` error). -/

/-- Model of `MemoryEntry` from `store.go`. -/
structure MemoryEntry where
  id : String
  text : List Char
  vector : List ℚ
  importance : ℚ
  category : String
  sessionKey : List Char
  createdAt : ℕ
deriving DecidableEq, Repr

/-- Model of `MemorySearchResult` from `store.go`. -/
structure MemorySearchResult where
  entry : MemoryEntry
  score : ℚ
deriving DecidableEq, Repr

/-- The `MemoryCategories` list from `store.go`. -/
def MemoryCategories : List String :=
  ["preference", "decision", "entity", "fact", "other"]

/-- Model of `MemoryStore.isValidCategory`: linear scan of the category list. -/
def isValidCategory (category : String) : Bool :=
  MemoryCategories.any (fun c => c == category)

/-- The two fields of `StoreConfig` read by `MemoryStore.Search`
(`MaxResults`, `MinScore`); the remaining fields configure I/O concerns
(paths, API keys) outside this model. -/
structure StoreConfig where
  maxResults : ℤ
  minScore : ℚ
deriving DecidableEq, Repr

/-- Model of `MemoryStore.Store`: embeds the text (failing fast on an embedding
error, leaving the state untouched), coerces an invalid category to
`"other"`, builds the entry and inserts it.  Returns the call's result
together with the post-state. -/
def Store (embed : List Char → Option (List ℚ)) (genId : String) (now : ℕ)
    (rows : List MemoryEntry) (text : List Char) (importance : ℚ)
    (category : String) (sessionKey : List Char) :
    Except String MemoryEntry × List MemoryEntry :=
  match embed text with
  | none => (.error "failed to generate embedding", rows)
  | some vector =>
    let category := if isValidCategory category then category else "other"
    let entry : MemoryEntry :=
      ⟨genId, text, vector, importance, category, sessionKey, now⟩
    (.ok entry, entry :: rows)

/-- One pass of the inner loop of the sort in `MemoryStore.Search`
(lines 282–288 of `store.go`): `cur` is `results[i]`, the list is
`results[i+1..]`; whenever `results[j].Score > results[i].Score` the two
are swapped, so the old `results[i]` moves to position `j`.  Returns the
value finally held at position `i` and the transformed tail. -/
def selPass (cur : MemorySearchResult) :
    List MemorySearchResult → MemorySearchResult × List MemorySearchResult
  | [] => (cur, [])
  | x :: xs =>
    if cur.score < x.score then
      ((selPass x xs).1, cur :: (selPass x xs).2)
    else
      ((selPass cur xs).1, x :: (selPass cur xs).2)

/-- Length is preserved by an inner pass. -/
theorem selPass_length (cur : MemorySearchResult) (l : List MemorySearchResult) :
    (selPass cur l).2.length = l.length := by
  induction l generalizing cur with
  | nil => rfl
  | cons x xs ih =>
    by_cases h : cur.score < x.score <;>
      simp [selPass, h, ih]

/-- The outer loop of the sort in `MemoryStore.Search`: after the inner
pass leaves the selected element at position `i`, the loop continues on
the positions after `i`. -/
def sortLoop : List MemorySearchResult → List MemorySearchResult
  | [] => []
  | x :: xs => (selPass x xs).1 :: sortLoop (selPass x xs).2
termination_by l => l.length
decreasing_by
  simp [selPass_length]

/-- Model of `MemoryStore.Search`: defaults `limit` and `minScore` from the
config when non-positive, embeds the query (propagating an embedding
error), scores the candidate window (at most 1000 rows, newest first)
with cosine similarity, keeps the candidates reaching `minScore`, sorts
them by score descending with the selection sort and truncates to
`limit`.  (With a negative effective limit Go's `results[:limit]` would
panic; the model returns the empty list there — no claim exercises a
negative `MaxResults`.) -/
def Search (embed : List Char → Option (List ℚ)) (cfg : StoreConfig)
    (rows : List MemoryEntry) (query : List Char) (limit : ℤ)
    (minScore : ℚ) : Except String (List MemorySearchResult) :=
  let limit := if limit ≤ 0 then cfg.maxResults else limit
  let minScore := if minScore ≤ 0 then cfg.minScore else minScore
  match embed query with
  | none => .error "failed to generate query embedding"
  | some queryVector =>
    let results :=
      ((rows.take 1000).map
          (fun e => MemorySearchResult.mk e (cosineSimilarity queryVector e.vector))).filter
        (fun r => minScore ≤ r.score)
    let sorted := sortLoop results
    .ok (if limit < (sorted.length : ℤ) then sorted.take limit.toNat else sorted)

/-- Lower-case hex digit, as in the character classes of the UUID
regular expression of `MemoryStore.Delete`. -/
def isHexLower (c : Char) : Bool :=
  ('0' ≤ c && c ≤ '9') || ('a' ≤ c && c ≤ 'f')

/-- The anchored pattern
`^[0-9a-f]{8}-[0-9a-f]{4}-[0-9a-f]{4}-[0-9a-f]{4}-[0-9a-f]{12}$`
of `MemoryStore.Delete` (applied to the lower-cased id). -/
def uuidShape (l : List Char) : Bool :=
  l.length = 36 &&
    (List.range 36).all (fun i =>
      if i = 8 ∨ i = 13 ∨ i = 18 ∨ i = 23 then l.getD i ' ' = '-'
      else isHexLower (l.getD i ' '))

/-- ASCII lower-casing of a character, extended to the uppercase forms
of the non-ASCII letters occurring in the repository's literals
(`š`, `ů`, `á`); all other characters are left unchanged.  Models both
Go's `strings.ToLower` and the `(?i)` flag on the inputs the claims
exercise. -/
def caseFold (c : Char) : Char :=
  if 'A' ≤ c ∧ c ≤ 'Z' then Char.ofNat (c.toNat + 32)
  else if c = 'Š' then 'š'
  else if c = 'Ů' then 'ů'
  else if c = 'Á' then 'á'
  else c

/-- Model of `strings.ToLower`. -/
def toLowerGo (s : List Char) : List Char := s.map caseFold

/-- Model of `strings.Contains`: `pat` occurs as a contiguous substring
of `s`.  (For the ASCII patterns used by the code, byte-level and
character-level substring occurrence coincide, since no UTF-8
continuation byte can start a match of an ASCII pattern.) -/
def containsSub (pat s : List Char) : Bool := decide (pat <:+: s)

/-- Model of `MemoryStore.Delete`: validates the id against the UUID pattern
(on the lower-cased id), then deletes the rows whose `id` column equals
the (original) id, failing when no row was affected.  Returns the
call's result together with the post-state. -/
def Delete (rows : List MemoryEntry) (id : String) :
    Except String Unit × List MemoryEntry :=
  if ¬ uuidShape (toLowerGo id.data) then
    (.error ("invalid memory ID format: " ++ id), rows)
  else
    let remaining := rows.filter (fun e => e.id ≠ id)
    if rows.length - remaining.length = 0 then
      (.error ("memory not found: " ++ id), rows)
    else
      (.ok (), remaining)

/-! ## The regular expressions of `tool.go`

Each Go regular expression used by `AutoCapture` is embedded as a
decidable matcher on `List Char`.  Go's RE2 Perl classes are ASCII:
`\d = [0-9]`, `\w = [0-9A-Za-z_]`, `\s = [\t\n\f\r ]`. -/

/-- The class `\d`. -/
def isDigitGo (c : Char) : Bool := '0' ≤ c && c ≤ '9'

/-- The class `\w`. -/
def isWordGo (c : Char) : Bool :=
  isDigitGo c || ('a' ≤ c && c ≤ 'z') || ('A' ≤ c && c ≤ 'Z') || c = '_'

/-- The class `[\w.-]` of the e-mail pattern. -/
def isWddGo (c : Char) : Bool := isWordGo c || c = '.' || c = '-'

/-- The class `\s`. -/
def isSpaceGo (c : Char) : Bool :=
  c = ' ' || c = '\t' || c = '\n' || c = '\x0c' || c = '\r'

/-- A case-insensitive literal alternative such as `(?i)remember`:
the folded literal occurs in the folded text. -/
def icontains (s : List Char) (lit : String) : Bool :=
  containsSub lit.data (toLowerGo s)

/-- The pattern `\+\d{10,}` (unanchored): some `+` is followed by at least ten
digits. -/
def matchPhone : List Char → Bool
  | [] => false
  | c :: rest =>
    (c = '+' && 10 ≤ rest.length && (rest.take 10).all isDigitGo)
      || matchPhone rest

/-- Continuation of the e-mail pattern after at least one `[\w.-]` has
been consumed past the `@`: matches `[\w.-]*\.\w` (the trailing `\w+`
needs only its first character).  The unions mirror the
nondeterminism of the regular expression (`.` belongs to `[\w.-]`). -/
def emailTail : List Char → Bool
  | [] => false
  | c :: rest =>
    (c = '.' && (match rest with | d :: _ => isWordGo d | [] => false))
      || (isWddGo c && emailTail rest)

/-- The part of the e-mail pattern after the `@`: `[\w.-]+\.\w+`. -/
def emailAfterAt : List Char → Bool
  | [] => false
  | c :: rest => isWddGo c && emailTail rest

/-- The part before the `@` after at least one `[\w.-]` has been
consumed: `[\w.-]*@` followed by `emailAfterAt` (deterministic, since
`@` is not in `[\w.-]`). -/
def emailBeforeAt : List Char → Bool
  | [] => false
  | '@' :: rest => emailAfterAt rest
  | c :: rest => isWddGo c && emailBeforeAt rest

/-- The pattern `[\w.-]+@[\w.-]+\.\w+` (unanchored). -/
def matchEmail : List Char → Bool
  | [] => false
  | c :: rest => (isWddGo c && emailBeforeAt rest) || matchEmail rest

/-- The pattern `@[\w.-]+\.\w+` (unanchored), as used by `DetectCategory`. -/
def matchAtDomain : List Char → Bool
  | [] => false
  | c :: rest => (c = '@' && emailAfterAt rest) || matchAtDomain rest

/-- Strips a case-folded literal from the front of the text. -/
def stripLit : List Char → List Char → Option (List Char)
  | [], s => some s
  | _ :: _, [] => none
  | p :: ps, c :: cs => if caseFold c = p then stripLit ps cs else none

/-- Consumes a maximal non-empty run of characters satisfying `p`
(`\s+` or `\w+`; maximal munch is equivalent to the regular expression
here because each run is followed by a literal or a run over a disjoint
class). -/
def dropRun (p : Char → Bool) : List Char → Option (List Char)
  | [] => none
  | c :: rest => if p c then some (rest.dropWhile p) else none

/-- Anchored `můj\s+\w+\s+je`. -/
def mujJeAt (l : List Char) : Bool :=
  (stripLit "můj".data l |>.bind (dropRun isSpaceGo)
    |>.bind (dropRun isWordGo) |>.bind (dropRun isSpaceGo)
    |>.bind (stripLit "je".data)).isSome

/-- Anchored `je\s+můj`. -/
def jeMujAt (l : List Char) : Bool :=
  (stripLit "je".data l |>.bind (dropRun isSpaceGo)
    |>.bind (stripLit "můj".data)).isSome

/-- Anchored `my\s+\w+\s+is`. -/
def myIsAt (l : List Char) : Bool :=
  (stripLit "my".data l |>.bind (dropRun isSpaceGo)
    |>.bind (dropRun isWordGo) |>.bind (dropRun isSpaceGo)
    |>.bind (stripLit "is".data)).isSome

/-- Anchored `is\s+my`. -/
def isMyAt (l : List Char) : Bool :=
  (stripLit "is".data l |>.bind (dropRun isSpaceGo)
    |>.bind (stripLit "my".data)).isSome

/-- Turns an anchored matcher into an unanchored one: try every
suffix. -/
def scanAny (f : List Char → Bool) : List Char → Bool
  | [] => f []
  | c :: rest => f (c :: rest) || scanAny f rest

/-- The pattern `(?i)můj\s+\w+\s+je|je\s+můj`. -/
def matchMujJe (s : List Char) : Bool :=
  scanAny (fun l => mujJeAt l || jeMujAt l) s

/-- The pattern `(?i)my\s+\w+\s+is|is\s+my`. -/
def matchMyIs (s : List Char) : Bool :=
  scanAny (fun l => myIsAt l || isMyAt l) s

/-! ## `AutoCapture` from `tool.go` -/

/-- Go's `len` on a string: the UTF-8 byte length. -/
def byteLen (s : List Char) : ℕ := (s.map Char.utf8Size).sum

/-- The emoji counter of `ShouldCapture`: code points in
`[0x1F300, 0x1F9FF]`. -/
def emojiCount (s : List Char) : ℕ :=
  s.countP (fun c => 0x1F300 ≤ c.toNat && c.toNat ≤ 0x1F9FF)

/-- The eight trigger patterns of `ShouldCapture`. -/
def anyTrigger (text : List Char) : Bool :=
  (icontains text "remember" || icontains text "zapamatuj" || icontains text "pamatuj")
  || (icontains text "prefer" || icontains text "radši" || icontains text "like"
      || icontains text "love" || icontains text "hate" || icontains text "want"
      || icontains text "need")
  || (icontains text "decided" || icontains text "rozhodli" || icontains text "will use"
      || icontains text "budeme")
  || matchPhone text
  || matchEmail text
  || matchMujJe text
  || matchMyIs text
  || (icontains text "always" || icontains text "never" || icontains text "important")

/-- Model of `AutoCapture.ShouldCapture`: byte-length window `[10, 500]`, no
memory-recall marker, no system-generated content (`<` prefix together
with a `</` occurrence), at most three emoji, and at least one trigger
pattern. -/
def ShouldCapture (text : List Char) : Bool :=
  if byteLen text < 10 || 500 < byteLen text then false
  else if containsSub "<relevant-memories>".data text then false
  else if (text.head? = some '<') && containsSub "</".data text then false
  else if 3 < emojiCount text then false
  else anyTrigger text

/-- Model of `AutoCapture.DetectCategory`: first matching bucket on the
lower-cased text, defaulting to `"other"`.  (The `(?i)` flags are
redundant there since the text was already lower-cased; matching is
performed on the lower-cased text as in the source.) -/
def DetectCategory (text : List Char) : String :=
  let lower := toLowerGo text
  if icontains lower "prefer" || icontains lower "radši" || icontains lower "like"
      || icontains lower "love" || icontains lower "hate" || icontains lower "want" then
    "preference"
  else if icontains lower "decided" || icontains lower "rozhodli"
      || icontains lower "will use" || icontains lower "budeme" then
    "decision"
  else if matchPhone lower || matchAtDomain lower || icontains lower "is called"
      || icontains lower "jmenuje se" then
    "entity"
  else if icontains lower "is" || icontains lower "are" || icontains lower "has"
      || icontains lower "have" || icontains lower "je" || icontains lower "má"
      || icontains lower "jsou" then
    "fact"
  else
    "other"

/-- The importance computation of `AutoCapture.Capture` (lines 263–269
of `tool.go`): starts at 0.5, set to 0.8 if the lower-cased text
contains `"important"`, then set to 0.7 if the text matches
`(?i)always|never` — the second assignment overwrites the first. -/
def captureImportance (text : List Char) : ℚ :=
  let importance : ℚ := 1/2
  let importance :=
    if containsSub "important".data (toLowerGo text) then (8/10 : ℚ) else importance
  if icontains text "always" || icontains text "never" then (7/10 : ℚ) else importance

/-- Model of `AutoCapture.Capture`: `none` models the `(nil, nil)` return for
texts `ShouldCapture` rejects; otherwise the result of the delegated
`MemoryStore.Store` call. -/
def Capture (embed : List Char → Option (List ℚ)) (genId : String) (now : ℕ)
    (rows : List MemoryEntry) (text sessionKey : List Char) :
    Option (Except String MemoryEntry × List MemoryEntry) :=
  if ShouldCapture text then
    some (Store embed genId now rows text (captureImportance text)
      (DetectCategory text) sessionKey)
  else
    none

/-! ## The embedders from `embeddings.go`

`OpenAIEmbedder.Embed` performs an HTTP request and
`LocalEmbedder.embedWithPython` runs a subprocess; both are modelled by
the abstract `embed` parameter of `Store`/`Search`.  The two pure
embeddings — `LocalEmbedder.fallbackEmbedding` and
`SimpleEmbedder.Embed` — are embedded in full. -/

/-- The whitespace test of `strings.Fields` (ASCII fragment of
`unicode.IsSpace`). -/
def isFieldSpace (c : Char) : Bool :=
  c = ' ' || c = '\t' || c = '\n' || c = '\x0b' || c = '\x0c' || c = '\r'

/-- Model of `strings.Fields`: maximal non-empty runs between whitespace. -/
def goFields (s : List Char) : List (List Char) :=
  (s.splitOnP isFieldSpace).filter (· ≠ [])

/-- The `strings.TrimFunc` call of `SimpleEmbedder.Embed`: strips
leading and trailing characters outside `'a'..'z'`. -/
def trimWord (w : List Char) : List Char :=
  let notLower : Char → Bool := fun c => !('a' ≤ c && c ≤ 'z')
  ((w.dropWhile notLower).reverse.dropWhile notLower).reverse

/-- The `commonWords` vocabulary of `NewSimpleEmbedder`, verbatim. -/
def commonWords : List String :=
  ["the", "be", "to", "of", "and", "a", "in", "that", "have", "i",
   "it", "for", "not", "on", "with", "he", "as", "you", "do", "at",
   "this", "but", "his", "by", "from", "they", "we", "say", "her", "she",
   "or", "an", "will", "my", "one", "all", "would", "there", "their", "what",
   "so", "up", "out", "if", "about", "who", "get", "which", "go", "me",
   "when", "make", "can", "like", "time", "no", "just", "him", "know", "take",
   "people", "into", "year", "your", "good", "some", "could", "them", "see", "other",
   "than", "then", "now", "look", "only", "come", "its", "over", "think", "also",
   "back", "after", "use", "two", "how", "our", "work", "first", "well", "way",
   "even", "new", "want", "because", "any", "these", "give", "day", "most", "us",
   "is", "was", "are", "were", "been", "has", "had", "did", "does", "doing",
   "code", "function", "class", "method", "variable", "program", "software", "computer",
   "data", "file", "project", "build", "test", "run", "debug", "error", "fix",
   "create", "add", "remove", "delete", "update", "change", "modify", "edit",
   "install", "configure", "setup", "deploy", "server", "client", "api", "web",
   "database", "query", "table", "column", "row", "sql", "nosql", "json", "xml",
   "python", "javascript", "typescript", "go", "golang", "rust", "java", "cpp", "c++",
   "react", "vue", "angular", "node", "express", "django", "flask", "fastapi",
   "docker", "kubernetes", "container", "cloud", "aws", "azure", "gcp",
   "git", "github", "commit", "branch", "merge", "pull", "push", "repository",
   "memory", "remember", "recall", "search", "find", "store", "save", "load",
   "user", "preference", "like", "dislike", "want", "need", "important", "always",
   "never", "usually", "sometimes", "often", "rarely", "name", "email", "phone",
   "address", "location", "place", "city", "country", "company", "work", "job"]

/-- The `vocab` map of `NewSimpleEmbedder`: `vocab[word] = i` for each
`(i, word)` in order, so a duplicated word keeps its **last** index. -/
def lookupVocab (w : List Char) : Option ℕ :=
  ((commonWords.enum.filter (fun p => p.2.data = w)).getLast?).map (·.1)

/-- The pre-normalization vector of `SimpleEmbedder.Embed`.  The Go
code iterates the `wordCount` map and writes `tf` at `vocab[word]`;
distinct words hold distinct vocabulary indices, so the (randomized)
map iteration order is irrelevant and the vector is equivalently built
index-wise: position `i` holds `count/len(words)` when the word whose
final vocabulary index is `i` occurs among the trimmed words, and 0
otherwise. -/
def simpleRawVector (text : List Char) : List ℚ :=
  let words := goFields (toLowerGo text)
  let trimmed := (words.map trimWord).filter (· ≠ [])
  (List.range commonWords.length).map (fun i =>
    let w := (commonWords.getD i "").data
    if lookupVocab w = some i ∧ 0 < trimmed.count w then
      (trimmed.count w : ℚ) / (words.length : ℚ)
    else 0)

/-- Model of `SimpleEmbedder.Embed` (it never returns an error). -/
def SimpleEmbed (text : List Char) : List ℚ :=
  normalizeVector (simpleRawVector text)

/-- Model of `LocalEmbedder.hashString`: djb2 over the characters, with `uint64`
wraparound. -/
def hashString (g : List Char) : ℕ :=
  g.foldl (fun h c => (h * 33 + c.toNat) % (2 ^ 64)) 5381

/-- Model of `LocalEmbedder.extractNgrams`: the `n`-character windows of the
lower-cased text (modelled at the character level; on ASCII text Go's
byte slicing coincides with it). -/
def extractNgrams (text : List Char) (n : ℕ) : List (List Char) :=
  let t := toLowerGo text
  (List.range (t.length + 1 - n)).map (fun i => (t.drop i).take n)

/-- Model of `LocalEmbedder.fallbackEmbedding`: bump the bucket `hash % dims`
for each trigram, then normalize. -/
def fallbackEmbedding (dims : ℕ) (text : List Char) : List ℚ :=
  let vector := (extractNgrams text 3).foldl
    (fun v g => v.set (hashString g % dims) (v.getD (hashString g % dims) 0 + 1))
    (List.replicate dims (0 : ℚ))
  normalizeVector vector

/-! ## `MemoryTool` (the `memory_recall` tool) from `tool.go` -/

/-- The property names declared in the JSON schema returned by
`MemoryTool.Schema` (`query`, `limit`, and the `category` filter with
its five-value enum). -/
def MemoryToolSchemaProperties : List String :=
  ["query", "limit", "category"]

/-- The parameters map of `MemoryTool.Execute`: each field is `none`
when the key is absent or its value has the wrong dynamic type
(`params["query"].(string)` / `params["limit"].(float64)`). -/
structure RecallParams where
  query : Option (List Char)
  limit : Option ℚ
  category : Option (List Char)
deriving DecidableEq, Repr

/-- Go's `int(l)` on a `float64`: truncation toward zero. -/
def ratTruncToInt (q : ℚ) : ℤ :=
  if 0 ≤ q then ⌊q⌋ else -⌊-q⌋

/-- The observable result of `MemoryTool.Execute`: the error cases, the
"No relevant memories found." answer, or the formatted result lines —
each line carrying the rank `i+1`, the category, the score and the text
that `fmt.Sprintf("%d. [%s] (score: %.2f) %s", ...)` renders (the
fixed-point rendering of the score is abstracted to the exact score). -/
inductive RecallOutput where
  | failure (msg : String)
  | noMemories
  | found (lines : List (ℕ × String × ℚ × List Char))
deriving DecidableEq, Repr

/-- Model of `MemoryTool.Execute`: requires a non-empty string `query`, defaults
`limit` to 5, delegates to `MemoryStore.Search` with minimum score 0.5
and formats the outcome.  It never reads the `category` parameter. -/
def Execute (embed : List Char → Option (List ℚ)) (cfg : StoreConfig)
    (rows : List MemoryEntry) (p : RecallParams) : RecallOutput :=
  match p.query with
  | none => .failure "query parameter is required"
  | some query =>
    if query = [] then .failure "query parameter is required"
    else
      let limit : ℤ := match p.limit with
        | some l => ratTruncToInt l
        | none => 5
      match Search embed cfg rows query limit (1/2) with
      | .error _ => .failure "memory search failed"
      | .ok results =>
        if results = [] then .noMemories
        else .found (results.enum.map
          (fun pr => (pr.1 + 1, pr.2.entry.category, pr.2.score, pr.2.entry.text)))

/-! ## Helper lemmas -/

theorem ratSqrt_zero : ratSqrt 0 = 0 := by
  simp [ratSqrt]

theorem ratSqrt_one : ratSqrt 1 = 1 := by
  simp [ratSqrt]

theorem sumSq_nonneg (v : List ℚ) : 0 ≤ sumSq v := by
  induction v with
  | nil => simp [sumSq]
  | cons x xs ih =>
    have hx : 0 ≤ x * x := mul_self_nonneg x
    simp only [sumSq, List.map_cons, List.sum_cons] at *
    linarith

theorem sumSq_cons (x : ℚ) (xs : List ℚ) :
    sumSq (x :: xs) = x * x + sumSq xs := by
  simp [sumSq]

theorem sumSq_eq_zero_iff (v : List ℚ) : sumSq v = 0 ↔ ∀ x ∈ v, x = 0 := by
  induction v with
  | nil => simp [sumSq]
  | cons x xs ih =>
    rw [sumSq_cons]
    constructor
    · intro h
      have hx : 0 ≤ x * x := mul_self_nonneg x
      have hxs : 0 ≤ sumSq xs := sumSq_nonneg xs
      have hx0 : x * x = 0 := by linarith
      have hxz : x = 0 := by
        rcases mul_self_eq_zero.mp hx0 with h0
        exact h0
      have hrest : sumSq xs = 0 := by linarith
      intro y hy
      rcases List.mem_cons.mp hy with h0 | h0
      · exact h0 ▸ hxz
      · exact (ih.mp hrest) y h0
    · intro h
      have hx : x = 0 := h x (List.mem_cons_self x xs)
      have hxs : sumSq xs = 0 := ih.mpr (fun y hy => h y (List.mem_cons_of_mem x hy))
      rw [hx, hxs]; ring

theorem dot_nil_right (a : List ℚ) : dot a [] = 0 := by
  simp [dot]

theorem dot_nil_left (b : List ℚ) : dot [] b = 0 := by
  simp [dot]

theorem dot_cons (x y : ℚ) (a b : List ℚ) :
    dot (x :: a) (y :: b) = x * y + dot a b := by
  simp [dot]

/-- Cauchy–Schwarz for the truncating dot product. -/
theorem dot_sq_le (a : List ℚ) : ∀ b : List ℚ,
    dot a b * dot a b ≤ sumSq a * sumSq b := by
  induction a with
  | nil =>
    intro b
    rw [dot_nil_left]
    have := sumSq_nonneg b
    simp [sumSq]
  | cons x xs ih =>
    intro b
    cases b with
    | nil =>
      rw [dot_nil_right]
      have h1 := sumSq_nonneg (x :: xs)
      simp [sumSq]
    | cons y ys =>
      rw [dot_cons, sumSq_cons, sumSq_cons]
      have hD := ih ys
      have hA := sumSq_nonneg xs
      have hB := sumSq_nonneg ys
      rcases eq_or_lt_of_le hA with hA0 | hApos
      · have hD0 : dot xs ys = 0 := by nlinarith [sq_nonneg (dot xs ys)]
        rw [hD0, ← hA0]
        nlinarith [mul_nonneg (mul_self_nonneg x) hB]
      · nlinarith [sq_nonneg (y * sumSq xs - x * dot xs ys),
          mul_nonneg (add_nonneg (mul_self_nonneg x) hA)
            (sub_nonneg.mpr hD), hApos]

/-- Cosine similarity of vectors whose sum of squares is 0 or 1 never
exceeds 1 (the square roots are exact there). -/
theorem cosineSimilarity_le_one (a b : List ℚ)
    (ha : sumSq a = 0 ∨ sumSq a = 1) (hb : sumSq b = 0 ∨ sumSq b = 1) :
    cosineSimilarity a b ≤ 1 := by
  unfold cosineSimilarity
  dsimp only
  split
  · norm_num
  · split
    · norm_num
    · rename_i hlen hz
      push_neg at hz
      obtain ⟨hz1, hz2⟩ := hz
      have ha1 : sumSq a = 1 := by tauto
      have hb1 : sumSq b = 1 := by tauto
      rw [ha1, hb1, ratSqrt_one]
      have hd := dot_sq_le a b
      rw [ha1, hb1] at hd
      have : dot a b * dot a b ≤ 1 := by linarith
      nlinarith [sq_nonneg (dot a b - 1)]

/-- The predicate `isValidCategory` accepts exactly the members of
`MemoryCategories`. -/
theorem isValidCategory_iff (category : String) :
    isValidCategory category = true ↔ category ∈ MemoryCategories := by
  simp only [isValidCategory, List.any_eq_true, beq_iff_eq]
  constructor
  · rintro ⟨c, hc, rfl⟩; exact hc
  · intro h; exact ⟨category, h, rfl⟩

/-! ## C7 — `Store` fails fast on embedding failure and writes nothing -/

/-- C7: for every input to `Store`, when the owned embedder fails, the
call returns the embedding-failure error and the post-state equals the
pre-state (no write at all). -/
theorem store_embedding_failure_atomic
    (embed : List Char → Option (List ℚ)) (genId : String) (now : ℕ)
    (rows : List MemoryEntry) (text : List Char) (importance : ℚ)
    (category : String) (sessionKey : List Char)
    (h : embed text = none) :
    Store embed genId now rows text importance category sessionKey =
      (.error "failed to generate embedding", rows) := by
  simp [Store, h]

/-- Witness for C7 at a concrete failing embedder. -/
theorem store_embedding_failure_atomic_witness :
    Store (fun _ => none) "id-1" 7 [] "some text".data 1 "fact" [] =
      (.error "failed to generate embedding", []) :=
  store_embedding_failure_atomic (fun _ => none) "id-1" 7 [] "some text".data
    1 "fact" [] rfl

/-! ## C8 — category coercion at write time -/

/-- C8: every successful `Store` call persists a category from the
fixed set, and an invalid category is coerced to `"other"`. -/
theorem store_category_coercion
    (embed : List Char → Option (List ℚ)) (genId : String) (now : ℕ)
    (rows : List MemoryEntry) (text : List Char) (importance : ℚ)
    (category : String) (sessionKey : List Char) (e : MemoryEntry)
    (h : (Store embed genId now rows text importance category sessionKey).1 = .ok e) :
    (category ∉ MemoryCategories → e.category = "other") ∧
      e.category ∈ MemoryCategories := by
  cases hemb : embed text with
  | none => simp [Store, hemb] at h
  | some v =>
    simp only [Store, hemb] at h
    have he : e = ⟨genId, text, v, importance,
        if isValidCategory category then category else "other", sessionKey, now⟩ := by
      cases h; rfl
    subst he
    by_cases hv : isValidCategory category = true
    · refine ⟨fun hmem => absurd ((isValidCategory_iff category).mp hv) hmem, ?_⟩
      simpa [hv] using (isValidCategory_iff category).mp hv
    · have : isValidCategory category = false := by
        simpa using hv
      refine ⟨fun _ => by simp [this], ?_⟩
      simp [this, MemoryCategories]

/-- Witness for C8: storing with category `"bogus-category"` persists
`"other"`. -/
theorem store_category_coercion_witness :
    ("bogus-category" ∉ MemoryCategories →
        (MemoryEntry.mk "id-2" "hello there".data [1] 1 "other" [] 3).category = "other") ∧
      (MemoryEntry.mk "id-2" "hello there".data [1] 1 "other" [] 3).category ∈
        MemoryCategories :=
  store_category_coercion (fun _ => some [1]) "id-2" 3 [] "hello there".data 1
    "bogus-category" [] (MemoryEntry.mk "id-2" "hello there".data [1] 1 "other" [] 3) rfl

/-! ## C9 — the pure embedders are deterministic functions of the text -/

/-- C9: `fallbackEmbedding` and `SimpleEmbed` depend on nothing but the
input text, so two `Store` calls with identical text — whatever ids,
clocks, pre-states, importances, categories or session keys they get —
persist identical vectors. -/
theorem embed_deterministic (dims : ℕ) (text : List Char)
    (genId₁ genId₂ : String) (now₁ now₂ : ℕ)
    (rows₁ rows₂ : List MemoryEntry) (importance₁ importance₂ : ℚ)
    (category₁ category₂ : String) (sessionKey₁ sessionKey₂ : List Char) :
    ((Store (fun t => some (fallbackEmbedding dims t)) genId₁ now₁ rows₁ text
          importance₁ category₁ sessionKey₁).1.toOption.map MemoryEntry.vector =
      (Store (fun t => some (fallbackEmbedding dims t)) genId₂ now₂ rows₂ text
          importance₂ category₂ sessionKey₂).1.toOption.map MemoryEntry.vector) ∧
    ((Store (fun t => some (SimpleEmbed t)) genId₁ now₁ rows₁ text
          importance₁ category₁ sessionKey₁).1.toOption.map MemoryEntry.vector =
      (Store (fun t => some (SimpleEmbed t)) genId₂ now₂ rows₂ text
          importance₂ category₂ sessionKey₂).1.toOption.map MemoryEntry.vector) := by
  constructor <;> simp [Store, Except.toOption]

/-! ## C10 — the recall tool never reads its declared `category` parameter -/

/-- C10: `category` is declared in the schema of `memory_recall`, yet
`Execute` returns the same result for any two parameter maps differing
only in their `category` entry — no category filtering is applied. -/
theorem execute_ignores_category :
    "category" ∈ MemoryToolSchemaProperties ∧
      ∀ (embed : List Char → Option (List ℚ)) (cfg : StoreConfig)
        (rows : List MemoryEntry) (query : Option (List Char))
        (limit : Option ℚ) (category₁ category₂ : Option (List Char)),
        Execute embed cfg rows ⟨query, limit, category₁⟩ =
          Execute embed cfg rows ⟨query, limit, category₂⟩ := by
  refine ⟨by simp [MemoryToolSchemaProperties], ?_⟩
  intro embed cfg rows query limit category₁ category₂
  rfl

/-! ## C1 — importance computed by `Capture`

The claim states that when a text both contains `"important"` and
matches `always`/`never`, the higher bump (0.8) wins.  In the code the
`always`/`never` assignment (0.7) is executed **after** the
`"important"` assignment (0.8) and overwrites it, so both triggers
together yield 0.7. -/

/-- C1 counterexample: `"this is always important"` is accepted by
`ShouldCapture`, contains `"important"` and matches `always|never`,
yet `Capture` computes importance 0.7, not the claimed 0.8. -/
theorem capture_importance_both_triggers_is_seven_tenths :
    ShouldCapture "this is always important".data = true ∧
    containsSub "important".data (toLowerGo "this is always important".data) = true ∧
    (icontains "this is always important".data "always"
      || icontains "this is always important".data "never") = true ∧
    captureImportance "this is always important".data = 7/10 := by
  refine ⟨by decide, by decide, by decide, ?_⟩
  have h : (icontains "this is always important".data "always"
      || icontains "this is always important".data "never") = true := by decide
  simp [captureImportance, h]

/-- C1 (amended): for every text `ShouldCapture` accepts, importance is
0.7 if the text matches `always|never` (this assignment runs last and
overrides the rest), otherwise 0.8 if the lower-cased text contains
`"important"`, otherwise 0.5. -/
theorem capture_importance_characterization (text : List Char)
    (_h : ShouldCapture text = true) :
    captureImportance text =
      if icontains text "always" || icontains text "never" then 7/10
      else if containsSub "important".data (toLowerGo text) then 8/10
      else 1/2 := by
  by_cases h1 : (icontains text "always" || icontains text "never") = true
  · simp [captureImportance, h1]
  · have h1f : (icontains text "always" || icontains text "never") = false := by
      simpa using h1
    by_cases h2 : containsSub "important".data (toLowerGo text) = true
    · simp [captureImportance, h1f, h2]
    · have h2f : containsSub "important".data (toLowerGo text) = false := by
        simpa using h2
      simp [captureImportance, h1f, h2f]

/-- Witness for C1's amended theorem at an accepted text matching only
the `always|never` trigger. -/
theorem capture_importance_characterization_witness :
    ShouldCapture "i always need coffee".data = true ∧
    captureImportance "i always need coffee".data =
      (if icontains "i always need coffee".data "always"
          || icontains "i always need coffee".data "never" then 7/10
        else if containsSub "important".data (toLowerGo "i always need coffee".data) then 8/10
        else 1/2) :=
  ⟨by decide, capture_importance_characterization "i always need coffee".data (by decide)⟩

/-! ## C4 — the length window of `ShouldCapture`

`ShouldCapture` checks `len(text)`, which in Go is the UTF-8 **byte**
length, not the character count: a 7-character text whose bytes number
in `[10, 500]` and which matches a trigger is captured. -/

/-- A text's byte length is at least its character count. -/
theorem length_le_byteLen (text : List Char) : text.length ≤ byteLen text := by
  induction text with
  | nil => simp [byteLen]
  | cons c cs ih =>
    have hc : 1 ≤ c.utf8Size := Char.utf8Size_pos c
    simp only [byteLen, List.map_cons, List.sum_cons, List.length_cons] at *
    omega

/-- A text of ASCII characters has byte length equal to its character
count. -/
theorem byteLen_of_ascii (text : List Char) (h : ∀ c ∈ text, c.utf8Size = 1) :
    byteLen text = text.length := by
  induction text with
  | nil => simp [byteLen]
  | cons c cs ih =>
    have hc : c.utf8Size = 1 := h c (List.mem_cons_self c cs)
    have hcs := ih (fun x hx => h x (List.mem_cons_of_mem c hx))
    simp only [byteLen, List.map_cons, List.sum_cons, List.length_cons] at *
    omega

/-- C4 counterexample: `never币币` has 7 characters — below the claimed
10-character minimum — yet `ShouldCapture` accepts it (its UTF-8 byte
length is 11). -/
theorem should_capture_accepts_seven_char_text :
    ShouldCapture ['n', 'e', 'v', 'e', 'r', '币', '币'] = true ∧
    ([ 'n', 'e', 'v', 'e', 'r', '币', '币'] : List Char).length = 7 ∧
    byteLen ['n', 'e', 'v', 'e', 'r', '币', '币'] = 11 := by
  refine ⟨by decide, by decide, by decide⟩

/-- C4 (amended): the `[10, 500]` window is measured in UTF-8 bytes:
any text of fewer than 10 or more than 500 bytes is rejected; in
particular a 5-character ASCII text and any 600-character text are
rejected. -/
theorem should_capture_length_window :
    (∀ text : List Char, byteLen text < 10 ∨ 500 < byteLen text →
        ShouldCapture text = false) ∧
    (∀ text : List Char, text.length = 5 → (∀ c ∈ text, c.utf8Size = 1) →
        ShouldCapture text = false) ∧
    (∀ text : List Char, text.length = 600 → ShouldCapture text = false) := by
  have hmain : ∀ text : List Char, byteLen text < 10 ∨ 500 < byteLen text →
      ShouldCapture text = false := by
    intro text h
    have hcond : (byteLen text < 10 || 500 < byteLen text) = true := by
      rcases h with h | h <;> simp [h]
    simp [ShouldCapture, hcond]
  refine ⟨hmain, ?_, ?_⟩
  · intro text hlen hascii
    exact hmain text (Or.inl (by rw [byteLen_of_ascii text hascii, hlen]; norm_num))
  · intro text hlen
    have := length_le_byteLen text
    exact hmain text (Or.inr (by omega))

/-- Witness for C4's amended theorem at concrete texts: a 3-byte text,
a 5-character ASCII text and a 600-character text. -/
theorem should_capture_length_window_witness :
    ShouldCapture "abc".data = false ∧
    ShouldCapture "hello".data = false ∧
    ShouldCapture (List.replicate 600 'a') = false :=
  ⟨should_capture_length_window.1 "abc".data (Or.inl (by decide)),
   should_capture_length_window.2.1 "hello".data (by decide) (by decide),
   should_capture_length_window.2.2 (List.replicate 600 'a')
     (List.length_replicate 600 'a')⟩

/-! ## The selection sort of `Search` -/

/-- An inner pass permutes the segment it works on. -/
theorem selPass_perm (cur : MemorySearchResult) (l : List MemorySearchResult) :
    List.Perm ((selPass cur l).1 :: (selPass cur l).2) (cur :: l) := by
  induction l generalizing cur with
  | nil => simp [selPass]
  | cons x xs ih =>
    by_cases h : cur.score < x.score
    · simp only [selPass, if_pos h]
      exact (List.Perm.swap cur (selPass x xs).1 (selPass x xs).2).trans
        ((ih x).cons cur)
    · simp only [selPass, if_neg h]
      exact ((List.Perm.swap x (selPass cur xs).1 (selPass cur xs).2).trans
        ((ih cur).cons x)).trans (List.Perm.swap cur x xs)

/-- After an inner pass, the selected element dominates the rest of the
segment (and the original head). -/
theorem selPass_max (cur : MemorySearchResult) (l : List MemorySearchResult) :
    (∀ y ∈ (selPass cur l).2, y.score ≤ (selPass cur l).1.score) ∧
      cur.score ≤ (selPass cur l).1.score := by
  induction l generalizing cur with
  | nil => simp [selPass]
  | cons x xs ih =>
    by_cases h : cur.score < x.score
    · simp only [selPass, if_pos h]
      obtain ⟨h1, h2⟩ := ih x
      refine ⟨?_, le_of_lt (lt_of_lt_of_le h h2)⟩
      intro y hy
      rcases List.mem_cons.mp hy with rfl | hy
      · exact le_of_lt (lt_of_lt_of_le h h2)
      · exact h1 y hy
    · simp only [selPass, if_neg h]
      obtain ⟨h1, h2⟩ := ih cur
      have hx : x.score ≤ cur.score := le_of_not_lt h
      refine ⟨?_, h2⟩
      intro y hy
      rcases List.mem_cons.mp hy with rfl | hy
      · exact le_trans hx h2
      · exact h1 y hy

/-- The selection sort permutes its input. -/
theorem sortLoop_perm : ∀ (n : ℕ) (l : List MemorySearchResult),
    l.length = n → List.Perm (sortLoop l) l := by
  intro n
  induction n using Nat.strong_induction_on with
  | _ n ih =>
    intro l hl
    cases l with
    | nil => simp [sortLoop]
    | cons x xs =>
      rw [sortLoop]
      have hn : xs.length + 1 = n := by simpa using hl
      have hlen : (selPass x xs).2.length < n := by
        rw [selPass_length]
        omega
      have ih2 := ih (selPass x xs).2.length hlen (selPass x xs).2 rfl
      exact (ih2.cons (selPass x xs).1).trans (selPass_perm x xs)

/-- The selection sort sorts by score, descending. -/
theorem sortLoop_sorted : ∀ (n : ℕ) (l : List MemorySearchResult),
    l.length = n → (sortLoop l).Pairwise (fun a b => b.score ≤ a.score) := by
  intro n
  induction n using Nat.strong_induction_on with
  | _ n ih =>
    intro l hl
    cases l with
    | nil => simp [sortLoop]
    | cons x xs =>
      rw [sortLoop]
      have hn : xs.length + 1 = n := by simpa using hl
      have hlen : (selPass x xs).2.length < n := by
        rw [selPass_length]
        omega
      refine List.Pairwise.cons ?_ (ih (selPass x xs).2.length hlen (selPass x xs).2 rfl)
      intro y hy
      have hmem : y ∈ (selPass x xs).2 :=
        (sortLoop_perm (selPass x xs).2.length (selPass x xs).2 rfl).mem_iff.mp hy
      exact (selPass_max x xs).1 y hmem

/-! ## C2 — ordering of `Search` results

The sort of `Search` orders by score descending, but it is a swap-based
selection sort, which is **not stable**: on the score pattern
`[1, 3/5, 3/5, 1]` the swap that brings the second score-1 candidate to
the front moves the first score-3/5 candidate behind the second one,
reversing the window order of the tied pair. -/

/-- C2 (amended): every result list returned by `Search` is sorted by
score descending (and `Search` is a pure function of its inputs, hence
reproducible); the tie order is **not** in general the candidate
window's order. -/
theorem search_results_sorted_desc
    (embed : List Char → Option (List ℚ)) (cfg : StoreConfig)
    (rows : List MemoryEntry) (query : List Char) (limit : ℤ)
    (minScore : ℚ) (out : List MemorySearchResult)
    (h : Search embed cfg rows query limit minScore = .ok out) :
    out.Pairwise (fun a b => b.score ≤ a.score) := by
  unfold Search at h
  cases hemb : embed query with
  | none => rw [hemb] at h; exact absurd h (by simp)
  | some qv =>
    rw [hemb] at h
    simp only [Except.ok.injEq] at h
    subst h
    generalize (if minScore ≤ 0 then cfg.minScore else minScore) = M
    generalize (if limit ≤ 0 then cfg.maxResults else limit) = L
    have hsorted := sortLoop_sorted
      (((rows.take 1000).map
          (fun e => MemorySearchResult.mk e (cosineSimilarity qv e.vector))).filter
        (fun r => M ≤ r.score)).length
      (((rows.take 1000).map
          (fun e => MemorySearchResult.mk e (cosineSimilarity qv e.vector))).filter
        (fun r => M ≤ r.score))
      rfl
    split
    · exact hsorted.sublist (List.take_sublist _ _)
    · exact hsorted

/-- Witness for C2's amended theorem at a concrete store. -/
theorem search_results_sorted_desc_witness :
    Search (fun _ => some []) (⟨5, 1⟩ : StoreConfig) [] "q".data 3 1 = .ok [] ∧
      ([] : List MemorySearchResult).Pairwise (fun a b => b.score ≤ a.score) :=
  ⟨by norm_num [Search, sortLoop],
   search_results_sorted_desc (fun _ => some []) ⟨5, 1⟩ [] "q".data 3 1 []
     (by norm_num [Search, sortLoop])⟩

/-- The four-entry candidate window of the instability counterexample,
newest first: scores against the query vector `[1, 0]` are
`1, 3/5, 3/5, 1`. -/
def cexE1 : MemoryEntry := ⟨"e1", [], [1, 0], 1, "other", [], 4⟩

/-- Second entry of the counterexample window (score 3/5). -/
def cexE2 : MemoryEntry := ⟨"e2", [], [3/5, 4/5], 1, "other", [], 3⟩

/-- Third entry of the counterexample window (score 3/5, older than
`cexE2`). -/
def cexE3 : MemoryEntry := ⟨"e3", [], [3/5, 4/5], 1, "other", [], 2⟩

/-- Fourth entry of the counterexample window (score 1). -/
def cexE4 : MemoryEntry := ⟨"e4", [], [1, 0], 1, "other", [], 1⟩

/-- C2 counterexample: on the window `[e1, e2, e3, e4]` (newest first)
with scores `1, 3/5, 3/5, 1`, `Search` returns `[e1, e4, e3, e2]` —
the equal-score pair `e2, e3` comes back in the order `e3, e2`,
**reversing** the candidate window's original order, because the swap
that moves `e4` to the front relocates `e2` behind `e3`. -/
theorem search_tie_order_not_window_order :
    Search (fun _ => some [1, 0]) (⟨5, 1/2⟩ : StoreConfig)
        [cexE1, cexE2, cexE3, cexE4] "q".data 10 (1/2) =
      .ok [⟨cexE1, 1⟩, ⟨cexE4, 1⟩, ⟨cexE3, 3/5⟩, ⟨cexE2, 3/5⟩] ∧
    cexE2.vector = cexE3.vector ∧
    List.indexOf "e2" ([cexE1, cexE2, cexE3, cexE4].map MemoryEntry.id) <
      List.indexOf "e3" ([cexE1, cexE2, cexE3, cexE4].map MemoryEntry.id) := by
  refine ⟨?_, rfl, by decide⟩
  norm_num [Search, cexE1, cexE2, cexE3, cexE4, cosineSimilarity, dot, sumSq,
    ratSqrt, sortLoop, selPass]

/-! ## C3 — norms of stored vectors

`normalizeVector` returns its input unchanged when the norm is zero, and
`SimpleEmbedder.Embed` produces the all-zero raw vector for any text
containing no vocabulary word — the persisted vector then has L2 norm
0, not 1.  (The same happens for `fallbackEmbedding` on texts shorter
than three characters.) -/

theorem sumSq_eq_zero_of_all (v : List ℚ) (h : ∀ x ∈ v, x = 0) : sumSq v = 0 :=
  (sumSq_eq_zero_iff v).mpr h

theorem sumSq_map_div (v : List ℚ) (c : ℚ) :
    sumSq (v.map (fun x => x / c)) = sumSq v / (c * c) := by
  induction v with
  | nil => simp [sumSq]
  | cons x xs ih =>
    simp only [List.map_cons, sumSq_cons, ih]
    by_cases hc : c = 0
    · simp [hc]
    · field_simp

/-- C3 counterexample: embedding `"zzzz"` with the simple embedder
stores the zero vector — its L2 norm is 0, not within any
floating-point epsilon of 1. -/
theorem simple_embed_zero_vector_counterexample :
    sumSq (SimpleEmbed "zzzz".data) = 0 := by
  have hraw : ∀ x ∈ simpleRawVector "zzzz".data, x = 0 := by
    intro x hx
    simp only [simpleRawVector, List.mem_map] at hx
    obtain ⟨i, hi, rfl⟩ := hx
    rw [if_neg]
    rintro ⟨h1, h2⟩
    have htr : ((goFields (toLowerGo "zzzz".data)).map trimWord).filter (· ≠ []) =
        [['z', 'z', 'z', 'z']] := by decide
    rw [htr] at h2
    have hw : (commonWords.getD i "").data = ['z', 'z', 'z', 'z'] := by
      have := List.count_pos_iff.mp h2
      simpa using this
    rw [hw] at h1
    have hnone : lookupVocab ['z', 'z', 'z', 'z'] = none := by decide
    rw [hnone] at h1
    exact Option.noConfusion h1
  have h0 : sumSq (simpleRawVector "zzzz".data) = 0 := sumSq_eq_zero_of_all _ hraw
  have hn : normalizeVector (simpleRawVector "zzzz".data) =
      simpleRawVector "zzzz".data := by
    unfold normalizeVector
    rw [h0, ratSqrt_zero, if_pos rfl]
  unfold SimpleEmbed
  rw [hn, h0]

/-- C3 (amended): whenever the raw vector is non-zero (and the square
root of its sum of squares is exact — the counterpart of
"within floating-point epsilon"), `normalizeVector` returns a vector of
L2 norm exactly 1; both pure embedders return `normalizeVector` of
their raw vector, so their output is unit-norm except on raw-zero
inputs, where it is the zero vector. -/
theorem normalize_unit_norm :
    (∀ v : List ℚ, ratSqrt (sumSq v) * ratSqrt (sumSq v) = sumSq v →
        sumSq v ≠ 0 → sumSq (normalizeVector v) = 1) ∧
    (∀ text, SimpleEmbed text = normalizeVector (simpleRawVector text)) ∧
    (∀ dims text, ∃ raw, fallbackEmbedding dims text = normalizeVector raw) := by
  refine ⟨?_, fun _ => rfl, fun _ _ => ⟨_, rfl⟩⟩
  intro v hexact h0
  have hnorm : ratSqrt (sumSq v) ≠ 0 := by
    intro h
    rw [h, mul_zero] at hexact
    exact h0 hexact.symm
  unfold normalizeVector
  rw [if_neg hnorm, sumSq_map_div, hexact, div_self h0]

/-- Witness for C3's amended theorem at `v = [3, 4]` (sum of squares
25, exact square root 5). -/
theorem normalize_unit_norm_witness :
    sumSq (normalizeVector [3, 4]) = 1 := by
  have h25 : sumSq [(3 : ℚ), 4] = 25 := by norm_num [sumSq]
  have h0 : Int.toNat 25 = 25 := rfl
  have h1 : Int.sqrt 25 = 5 := by
    unfold Int.sqrt
    rw [h0]
    norm_num
  have hsq : ratSqrt 25 = 5 := by
    unfold ratSqrt
    rw [Rat.num_ofNat, Rat.den_ofNat, h1, Nat.sqrt_one]
    norm_num [Rat.mkRat_def]
  refine normalize_unit_norm.1 [3, 4] ?_ ?_
  · rw [h25, hsq]
    norm_num
  · rw [h25]
    norm_num

/-! ## C5 — `Delete` validation, not-found and success behaviour -/

/-- Every entry of a successful `Search` result comes from the store's
rows. -/
theorem search_result_entry_mem
    (embed : List Char → Option (List ℚ)) (cfg : StoreConfig)
    (rows : List MemoryEntry) (query : List Char) (limit : ℤ)
    (minScore : ℚ) (out : List MemorySearchResult) (r : MemorySearchResult)
    (h : Search embed cfg rows query limit minScore = .ok out) (hr : r ∈ out) :
    r.entry ∈ rows := by
  unfold Search at h
  cases hemb : embed query with
  | none => rw [hemb] at h; exact absurd h (by simp)
  | some qv =>
    rw [hemb] at h
    simp only [Except.ok.injEq] at h
    subst h
    set M := if minScore ≤ 0 then cfg.minScore else minScore with hM
    set L := if limit ≤ 0 then cfg.maxResults else limit with hL
    have hr2 : r ∈ sortLoop
        (((rows.take 1000).map
            (fun e => MemorySearchResult.mk e (cosineSimilarity qv e.vector))).filter
          (fun x => M ≤ x.score)) := by
      split at hr
      · exact List.mem_of_mem_take hr
      · exact hr
    have hr3 := (sortLoop_perm _ _ rfl).subset hr2
    have hr4 := List.mem_of_mem_filter hr3
    obtain ⟨e, he, hre⟩ := List.mem_map.mp hr4
    have : r.entry = e := by rw [← hre]
    rw [this]
    exact List.take_subset 1000 rows he

/-- C5: `Delete` on a malformed id fails with the validation error and
leaves the rows untouched; on a well-formed id matching no row it fails
with the not-found error and leaves the rows untouched; on a present id
it succeeds, and no subsequent `Search` on the resulting state returns
a result carrying that id. -/
theorem delete_spec :
    (∀ (rows : List MemoryEntry) (id : String),
        uuidShape (toLowerGo id.data) = false →
        Delete rows id = (.error ("invalid memory ID format: " ++ id), rows)) ∧
    (∀ (rows : List MemoryEntry) (id : String),
        uuidShape (toLowerGo id.data) = true →
        (∀ e ∈ rows, e.id ≠ id) →
        Delete rows id = (.error ("memory not found: " ++ id), rows)) ∧
    (∀ (rows : List MemoryEntry) (id : String),
        uuidShape (toLowerGo id.data) = true →
        (∃ e ∈ rows, e.id = id) →
        (Delete rows id).1 = .ok () ∧
        ∀ (embed : List Char → Option (List ℚ)) (cfg : StoreConfig)
          (query : List Char) (limit : ℤ) (minScore : ℚ)
          (out : List MemorySearchResult),
          Search embed cfg (Delete rows id).2 query limit minScore = .ok out →
          ∀ r ∈ out, r.entry.id ≠ id) := by
  refine ⟨?_, ?_, ?_⟩
  · intro rows id h
    simp [Delete, h]
  · intro rows id h hnone
    have hfilter : rows.filter (fun e => e.id ≠ id) = rows :=
      List.filter_eq_self.mpr (fun e he => by simpa using hnone e he)
    unfold Delete
    rw [if_neg (fun hc => hc h)]
    dsimp only
    rw [hfilter, Nat.sub_self, if_pos rfl]
  · intro rows id h hex
    have hlt : (rows.filter (fun e => e.id ≠ id)).length < rows.length := by
      refine List.length_filter_lt_length_iff_exists.mpr ?_
      obtain ⟨e, he, heid⟩ := hex
      exact ⟨e, he, by simpa using heid⟩
    have hne : ¬(rows.length - (rows.filter (fun e => e.id ≠ id)).length = 0) := by
      omega
    have hdel : Delete rows id = (.ok (), rows.filter (fun e => e.id ≠ id)) := by
      unfold Delete
      rw [if_neg (fun hc => hc h)]
      dsimp only
      rw [if_neg hne]
    refine ⟨by rw [hdel], ?_⟩
    intro embed cfg query limit minScore out hsearch r hr
    rw [hdel] at hsearch
    have hmem := search_result_entry_mem embed cfg
      (rows.filter (fun e => e.id ≠ id)) query limit minScore out r hsearch hr
    have := List.of_mem_filter hmem
    simpa using this

/-- Witness for C5 at concrete ids and stores: a malformed id, a
well-formed absent id, and a deletion of the single present entry
followed by a search. -/
theorem delete_spec_witness :
    Delete [] "not-a-uuid" =
      (.error ("invalid memory ID format: " ++ "not-a-uuid"), []) ∧
    Delete [] "00000000-0000-0000-0000-000000000000" =
      (.error ("memory not found: " ++ "00000000-0000-0000-0000-000000000000"), []) ∧
    (Delete [⟨"11111111-1111-1111-1111-111111111111", [], [1], 1, "other", [], 0⟩]
        "11111111-1111-1111-1111-111111111111").1 = .ok () :=
  ⟨delete_spec.1 [] "not-a-uuid" (by decide),
   delete_spec.2.1 [] "00000000-0000-0000-0000-000000000000" (by decide)
     (by intro e he; exact absurd he (List.not_mem_nil e)),
   (delete_spec.2.2 [⟨"11111111-1111-1111-1111-111111111111", [], [1], 1, "other", [], 0⟩]
      "11111111-1111-1111-1111-111111111111" (by decide)
      ⟨_, List.mem_singleton_self _, rfl⟩).1⟩

/-! ## C6 — "no match" is never an error

When the query embedding succeeds, an empty store yields `ok []`, and a
threshold of 1.1 yields `ok []` on any store whose vectors (and query
vector) are exactly unit- or zero-normalized — the regime every `Embed`
implementation produces, under which the square roots in
`cosineSimilarity` are exact and every score is at most 1. -/

/-- C6: searching an empty store returns the empty list without error,
and searching any store with the unreachable minimum score 1.1 returns
the empty list without error. -/
theorem search_no_match_no_error :
    (∀ (embed : List Char → Option (List ℚ)) (cfg : StoreConfig)
        (query : List Char) (limit : ℤ) (minScore : ℚ) (qv : List ℚ),
        embed query = some qv →
        Search embed cfg [] query limit minScore = .ok []) ∧
    (∀ (embed : List Char → Option (List ℚ)) (cfg : StoreConfig)
        (rows : List MemoryEntry) (query : List Char) (limit : ℤ) (qv : List ℚ),
        embed query = some qv →
        (sumSq qv = 0 ∨ sumSq qv = 1) →
        (∀ e ∈ rows, sumSq e.vector = 0 ∨ sumSq e.vector = 1) →
        Search embed cfg rows query limit (11/10) = .ok []) := by
  constructor
  · intro embed cfg query limit minScore qv hemb
    unfold Search
    rw [hemb]
    simp [sortLoop]
  · intro embed cfg rows query limit qv hemb hq hrows
    unfold Search
    rw [hemb]
    dsimp only
    have hms : ¬((11/10 : ℚ) ≤ 0) := by norm_num
    rw [if_neg hms]
    have hfilter : (((rows.take 1000).map
        (fun e => MemorySearchResult.mk e (cosineSimilarity qv e.vector))).filter
          (fun r => (11/10 : ℚ) ≤ r.score)) = [] := by
      rw [List.filter_eq_nil_iff]
      intro r hrmem
      obtain ⟨e, he, hre⟩ := List.mem_map.mp hrmem
      have he2 : e ∈ rows := List.take_subset _ _ he
      have hsc := cosineSimilarity_le_one qv e.vector hq (hrows e he2)
      rw [← hre]
      simp only [decide_eq_true_eq]
      intro habs
      linarith
    rw [hfilter]
    simp [sortLoop]

/-- Witness for C6 at an empty store and at a one-entry store with a
unit vector and the 1.1 threshold. -/
theorem search_no_match_no_error_witness :
    Search (fun _ => some [1, 0]) (⟨5, 1/2⟩ : StoreConfig) [] "q".data 2 (3/4) =
      .ok [] ∧
    Search (fun _ => some [1, 0]) (⟨5, 1/2⟩ : StoreConfig)
        [⟨"w1", [], [3/5, 4/5], 1, "other", [], 0⟩] "q".data 2 (11/10) = .ok [] :=
  ⟨search_no_match_no_error.1 (fun _ => some [1, 0]) ⟨5, 1/2⟩ "q".data 2 (3/4)
      [1, 0] rfl,
   search_no_match_no_error.2 (fun _ => some [1, 0]) ⟨5, 1/2⟩
      [⟨"w1", [], [3/5, 4/5], 1, "other", [], 0⟩] "q".data 2 [1, 0] rfl
      (Or.inr (by norm_num [sumSq]))
      (by
        intro e he
        rw [List.mem_singleton] at he
        subst he
        exact Or.inr (by norm_num [sumSq]))⟩

end Picoclaw
